import Mathlib

/-!
Verification of the CREDI extractor core (`src/credi_extractor.py`).

The Python source is shallowly embedded: Python strings are Lean `String`s
(manipulated through their `List Char` data so that every definition is
executable and kernel-reducible), spreadsheet cells are an inductive `Cell`
type, Python `dict`s are association lists with in-place update, Python
`set`s are duplicate-free lists, and the stateful `SchoolNameNormalizer`
becomes explicit state passing.

Two Python library functions are abstracted as parameters (`PyEnv`):
`re.sub` (global regex substitution, used only through the rule chain of
`SchoolNameNormalizer.normalize`) and the NFD-based diacritic stripping of
`SchoolNameNormalizer._remove_accents`.  No claim below depends on their
internal semantics, only on where and in which order they are invoked, so
the theorems quantify over the environment.  `idEnv` instantiates both by
the identity function, which agrees exactly with the Python behaviour on
accent-free input whenever the substitution result is not inspected (for
example when the rule chain is empty or is short-circuited by a mapping).

Character-level operations (`upper`, `strip`, `title`, `isdigit`, `\s`,
`\d`) are modelled with their ASCII semantics; every concrete input used in
a theorem below is ASCII (plus the literal accented letters of the category
keywords, which are compared only for equality).
-/

namespace Credi

/-! ### Python string primitives -/

/-- The six characters Python's `str.split()` / `str.strip()` and the regex
class `\s` treat as whitespace (ASCII fragment). -/
def isPySpace (c : Char) : Bool :=
  c = ' ' || c = '\t' || c = '\n' || c = '\r' || c = '\x0b' || c = '\x0c'

/-- `str.strip()` on the character list. -/
def pyStripL (cs : List Char) : List Char :=
  ((cs.dropWhile isPySpace).reverse.dropWhile isPySpace).reverse

/-- Python `s.strip()`. -/
def pyStrip (s : String) : String := ⟨pyStripL s.toList⟩

/-- Python `s.upper()` (ASCII semantics). -/
def pyUpper (s : String) : String := ⟨s.toList.map Char.toUpper⟩

/-- Helper for `pyTitle`: the Boolean records whether the previous character
was alphabetic. -/
def pyTitleL : List Char → Bool → List Char
  | [], _ => []
  | c :: cs, prevAlpha =>
    (if prevAlpha then c.toLower else c.toUpper) :: pyTitleL cs c.isAlpha

/-- Python `s.title()` (ASCII semantics): each letter following a non-letter
is uppercased, every other letter is lowercased. -/
def pyTitle (s : String) : String := ⟨pyTitleL s.toList false⟩

/-- Helper for `s.split()`: accumulates the current word (reversed). -/
def pyWordsAux : List Char → List Char → List (List Char)
  | [], acc => if acc = [] then [] else [acc.reverse]
  | c :: cs, acc =>
    if isPySpace c then
      if acc = [] then pyWordsAux cs [] else acc.reverse :: pyWordsAux cs []
    else pyWordsAux cs (c :: acc)

/-- Python `s.split()`: maximal whitespace-free words, no empty entries. -/
def pyWords (s : String) : List (List Char) := pyWordsAux s.toList []

/-- `' '.join(words)` on character lists. -/
def joinSpace : List (List Char) → List Char
  | [] => []
  | [w] => w
  | w :: w2 :: ws => w ++ ' ' :: joinSpace (w2 :: ws)

/-- Lines 101-102 of the source: `' '.join(normalized.split())` followed by
`normalized.strip()` — collapse repeated whitespace and trim. -/
def collapseWs (s : String) : String := pyStrip ⟨joinSpace (pyWords s)⟩

/-! ### The normalization engine (`SchoolNameNormalizer`) -/

/-- The two Python library functions `SchoolNameNormalizer` calls and whose
internals the claims do not depend on: `sub pat repl text` abstracts
`re.sub(pat, repl, text)` (a global substitution over the whole text), and
`removeAccents` abstracts `_remove_accents` (NFD normalization followed by
dropping combining marks). -/
structure PyEnv where
  sub : String → String → String → String
  removeAccents : String → String

/-- Environment instantiating both abstracted library functions by the
identity; exact for accent-free ASCII input whenever the rule chain is
empty or never reached. -/
def idEnv : PyEnv := { sub := fun _ _ s => s, removeAccents := fun s => s }

/-- The built-in rule chain (`self.replacements` of `__init__`),
as ordered (pattern, replacement) pairs. -/
def defaultReplacements : List (String × String) :=
  [("\\bSTE\\b", "SAINTE"),
   ("\\bST\\b", "SAINT"),
   ("MATERNELLEELEMENTAIRE", "MATERNELLE ELEMENTAIRE"),
   ("ELEMENTAIREMATERNELLE", "ELEMENTAIRE MATERNELLE"),
   ("\\bMAT\\b", "MATERNELLE"),
   ("\\bELEM\\b", "ELEMENTAIRE"),
   ("\\bELE\\b", "ELEMENTAIRE"),
   ("\\bECOLE\\b", ""),
   ("\\bCANTINE SCOLAIRE\\b", ""),
   ("\\bRESTAURATION\\b", ""),
   ("\\+", " "),
   ("\\bET\\b", ""),
   ("\\s+", " ")]

/-- The mutable state of a `SchoolNameNormalizer` instance: the mapping
table (a `dict`), the rule chain, the set of distinct originals seen
(`found_schools`, a `set`), and the consolidation index
(`normalization_stats`, a `dict` from canonical name to the list of
original spellings). -/
structure NormalizerState where
  mappings : List (String × String)
  replacements : List (String × String)
  found_schools : List String
  normalization_stats : List (String × List String)

/-- A freshly constructed `SchoolNameNormalizer`. -/
def initState : NormalizerState :=
  { mappings := [], replacements := defaultReplacements,
    found_schools := [], normalization_stats := [] }

/-- `set.add`: insert if not already present (representation of the Python
set as a duplicate-free list). -/
def insertNew (l : List String) (a : String) : List String :=
  if a ∈ l then l else l ++ [a]

/-- Read a key of the consolidation index (`[]` when absent). -/
def statsGet (stats : List (String × List String)) (k : String) : List String :=
  match stats.lookup k with
  | some l => l
  | none => []

/-- In-place `dict` update: overwrite the value at `k`, or append a fresh
entry at the end. -/
def statsSet : List (String × List String) → String → List String → List (String × List String)
  | [], k, v => [(k, v)]
  | (k', v') :: rest, k, v =>
    if k' = k then (k, v) :: rest else (k', v') :: statsSet rest k v

/-- `SchoolNameNormalizer._record_normalization`: only when the original
differs from the normalized result, append the original to the canonical
name's bucket (creating the bucket if needed, skipping duplicates). -/
def recordNorm (stats : List (String × List String)) (original normalized : String) :
    List (String × List String) :=
  if original = normalized then stats
  else
    match stats.lookup normalized with
    | none => statsSet stats normalized [original]
    | some l => if original ∈ l then stats else statsSet stats normalized (l ++ [original])

/-- Lines 84-87 of `normalize`: `school_name.strip().upper()` followed by
`_remove_accents` — the key used for the mapping lookup and as the rule
chain's input. -/
def toKey (env : PyEnv) (s : String) : String := env.removeAccents (pyUpper (pyStrip s))

/-- The rule chain as a sequential pipeline: the first rule is applied to
the input, each later rule to the output of the previous one. -/
def applyChain (sub : String → String → String → String) :
    List (String × String) → String → String
  | [], s => s
  | r :: rs, s => applyChain sub rs (sub r.1 r.2 s)

/-- `SchoolNameNormalizer.normalize`, returning the canonical name and the
updated state.  Mirrors the source line by line: empty input short-circuits
to the sentinel with no recording; a mapping hit returns the mapped value;
otherwise the rule chain is folded over the key, whitespace is collapsed,
an empty result becomes the sentinel, and the outcome is recorded. -/
def normalize (env : PyEnv) (st : NormalizerState) (school_name : String) :
    String × NormalizerState :=
  if school_name = "" then ("ECOLE_INCONNUE", st)
  else
    let original := school_name
    let normalized := toKey env school_name
    match st.mappings.lookup normalized with
    | some result =>
        (result,
         { st with
           found_schools := insertNew st.found_schools original,
           normalization_stats := recordNorm st.normalization_stats original result })
    | none =>
        let normalized := st.replacements.foldl (fun acc r => env.sub r.1 r.2 acc) normalized
        let normalized := collapseWs normalized
        let normalized := if normalized = "" then "ECOLE_INCONNUE" else normalized
        (normalized,
         { st with
           found_schools := insertNew st.found_schools original,
           normalization_stats := recordNorm st.normalization_stats original normalized })

/-- A run: successive `normalize` calls threading the engine state. -/
def runNames (env : PyEnv) (st : NormalizerState) (names : List String) : NormalizerState :=
  names.foldl (fun s n => (normalize env s n).2) st

/-- Lexicographic code-point comparison of character lists — Python's `≤`
on strings, used by `sorted`. -/
def lexLe : List Char → List Char → Bool
  | [], _ => true
  | _ :: _, [] => false
  | a :: as, b :: bs => if a = b then lexLe as bs else decide (a < b)

/-- Python's string `≤` as a relation on Lean strings. -/
def strLe (a b : String) : Prop := lexLe a.toList b.toList = true

instance : DecidableRel strLe :=
  fun a b => inferInstanceAs (Decidable (lexLe a.toList b.toList = true))

/-- The school list serialized by `export_found_schools`:
`sorted(list(self.found_schools))`. -/
def exportSchools (st : NormalizerState) : List String :=
  List.insertionSort strLe st.found_schools

/-- Number of occurrences of a string in a list. -/
def countStr (a : String) (l : List String) : Nat :=
  (l.filter (fun x => x = a)).length

/-! ### Helper lemmas about the normalizer -/

theorem lexLe_total : ∀ as bs : List Char, lexLe as bs = true ∨ lexLe bs as = true
  | [], _ => Or.inl rfl
  | _ :: _, [] => Or.inr rfl
  | a :: as, b :: bs => by
    by_cases h : a = b
    · subst h
      rcases lexLe_total as bs with h' | h' <;> [left; right] <;> simpa [lexLe] using h'
    · rcases lt_or_gt_of_ne h with hlt | hlt
      · left; simp [lexLe, h, hlt]
      · right; simp [lexLe, Ne.symm h, hlt, not_lt_of_gt hlt]

theorem lexLe_trans : ∀ as bs cs : List Char,
    lexLe as bs = true → lexLe bs cs = true → lexLe as cs = true
  | [], _, _ => fun _ _ => rfl
  | _ :: _, [], _ => fun h _ => by simp [lexLe] at h
  | _ :: _, _ :: _, [] => fun _ h => by simp [lexLe] at h
  | a :: as, b :: bs, c :: cs => fun h1 h2 => by
    by_cases hab : a = b <;> by_cases hbc : b = c
    · subst hab; subst hbc
      simp only [lexLe, if_pos rfl] at h1 h2 ⊢
      exact lexLe_trans as bs cs h1 h2
    · subst hab
      simpa [lexLe, hbc] using h2
    · subst hbc
      simpa [lexLe, hab] using h1
    · simp only [lexLe, if_neg hab, decide_eq_true_eq] at h1
      simp only [lexLe, if_neg hbc, decide_eq_true_eq] at h2
      have hac : a < c := lt_trans h1 h2
      simp [lexLe, ne_of_lt hac, hac]

instance : IsTotal String strLe := ⟨fun a b => lexLe_total a.toList b.toList⟩

instance : IsTrans String strLe :=
  ⟨fun a b c => lexLe_trans a.toList b.toList c.toList⟩

theorem mem_insertNew_self (l : List String) (a : String) : a ∈ insertNew l a := by
  unfold insertNew
  split
  · assumption
  · exact List.mem_append_right _ (List.mem_singleton.mpr rfl)

theorem mem_insertNew_of_mem (l : List String) (a b : String) (h : b ∈ l) :
    b ∈ insertNew l a := by
  unfold insertNew
  split
  · exact h
  · exact List.mem_append_left _ h

theorem insertNew_nodup (l : List String) (a : String) (h : l.Nodup) :
    (insertNew l a).Nodup := by
  unfold insertNew
  split
  · exact h
  · next hne =>
    simpa [List.nodup_append, h] using hne

/-- The `found_schools` update of a `normalize` call in one equation. -/
theorem normalize_found (env : PyEnv) (st : NormalizerState) (n : String) :
    (normalize env st n).2.found_schools =
      if n = "" then st.found_schools else insertNew st.found_schools n := by
  unfold normalize
  split
  · rfl
  · dsimp only
    split <;> rfl

theorem runNames_found_mono (env : PyEnv) (names : List String) :
    ∀ (st : NormalizerState) (m : String), m ∈ st.found_schools →
      m ∈ (runNames env st names).found_schools := by
  induction names with
  | nil => exact fun st m h => h
  | cons x xs ih =>
    intro st m h
    refine ih _ m ?_
    rw [normalize_found]
    split
    · exact h
    · exact mem_insertNew_of_mem _ _ _ h

theorem runNames_found_mem (env : PyEnv) (names : List String) :
    ∀ (st : NormalizerState) (n : String), n ∈ names → n ≠ "" →
      n ∈ (runNames env st names).found_schools := by
  induction names with
  | nil => intro st n h; exact absurd h (List.not_mem_nil n)
  | cons x xs ih =>
    intro st n h hne
    rcases List.mem_cons.mp h with h | h
    · subst h
      refine runNames_found_mono env xs _ n ?_
      rw [normalize_found, if_neg hne]
      exact mem_insertNew_self _ _
    · exact ih _ n h hne

theorem runNames_found_nodup (env : PyEnv) (names : List String) :
    ∀ st : NormalizerState, st.found_schools.Nodup →
      (runNames env st names).found_schools.Nodup := by
  induction names with
  | nil => exact fun st h => h
  | cons x xs ih =>
    intro st h
    refine ih _ ?_
    rw [normalize_found]
    split
    · exact h
    · exact insertNew_nodup _ _ h

theorem countStr_eq_one (a : String) :
    ∀ l : List String, l.Nodup → a ∈ l → countStr a l = 1 := by
  intro l hn hm
  induction l with
  | nil => exact absurd hm (List.not_mem_nil a)
  | cons x xs ih =>
    rcases List.nodup_cons.mp hn with ⟨hx, hxs⟩
    rcases List.mem_cons.mp hm with h | h
    · subst h
      have : xs.filter (fun x => decide (x = a)) = [] :=
        List.filter_eq_nil_iff.mpr (fun b hb => by
          simp only [decide_eq_true_eq]
          exact fun hba => hx (hba ▸ hb))
      simp [countStr, List.filter_cons, this]
    · have hxa : x ≠ a := fun hxa => hx (hxa ▸ h)
      simpa [countStr, List.filter_cons, hxa] using ih hxs h

theorem countStr_perm (a : String) {l l' : List String} (p : l.Perm l') :
    countStr a l = countStr a l' :=
  (p.filter (fun x => decide (x = a))).length_eq

theorem statsGet_statsSet (k : String) (v : List String) :
    ∀ stats, statsGet (statsSet stats k v) k = v := by
  intro stats
  induction stats with
  | nil => simp [statsSet, statsGet, List.lookup]
  | cons p rest ih =>
    rcases p with ⟨k', v'⟩
    by_cases h : k' = k
    · simp [statsSet, h, statsGet, List.lookup]
    · have hb : (k == k') = false := beq_eq_false_iff_ne.mpr (Ne.symm h)
      simp only [statsSet, if_neg h, statsGet, List.lookup, hb]
      exact ih

/-- `_record_normalization` really does index the original under the
canonical name whenever the two differ. -/
theorem mem_statsGet_recordNorm (stats : List (String × List String))
    (o n : String) (h : o ≠ n) : o ∈ statsGet (recordNorm stats o n) n := by
  unfold recordNorm
  rw [if_neg h]
  cases hl : stats.lookup n with
  | none =>
    dsimp only
    rw [statsGet_statsSet]
    exact List.mem_singleton.mpr rfl
  | some l =>
    dsimp only
    by_cases hm : o ∈ l
    · rw [if_pos hm]
      simp only [statsGet, hl]
      exact hm
    · rw [if_neg hm, statsGet_statsSet]
      exact List.mem_append_right _ (List.mem_singleton.mpr rfl)

theorem foldl_applyChain (sub : String → String → String → String) :
    ∀ (rs : List (String × String)) (s : String),
      rs.foldl (fun acc r => sub r.1 r.2 acc) s = applyChain sub rs s := by
  intro rs
  induction rs with
  | nil => intro s; rfl
  | cons r rest ih => intro s; exact ih (sub r.1 r.2 s)

/-! ### Claim C1 -/

/-- C1: for every non-empty raw name whose key misses the mapping table,
`normalize` applies every rule of the chain in order as one sequential
pipeline (each rule transforming the output of the previous one, starting
from the key), then collapses repeated whitespace and trims, and returns
the sentinel `"ECOLE_INCONNUE"` exactly when the cleaned result is empty,
the cleaned result otherwise. -/
theorem C1_rule_chain_pipeline (env : PyEnv) (st : NormalizerState) (raw : String)
    (h1 : raw ≠ "") (h2 : st.mappings.lookup (toKey env raw) = none) :
    (normalize env st raw).1 =
      (let chained := applyChain env.sub st.replacements (toKey env raw)
       let cleaned := collapseWs chained
       if cleaned = "" then "ECOLE_INCONNUE" else cleaned) := by
  unfold normalize
  rw [if_neg h1]
  dsimp only
  rw [h2]
  dsimp only
  rw [foldl_applyChain]

/-- C1 witness: a concrete state with a non-trivial rule chain and a
mapping table missed by the input. -/
theorem C1_rule_chain_pipeline_witness :
    (normalize idEnv
        { mappings := [("Z", "W")], replacements := [("foo", "bar")],
          found_schools := [], normalization_stats := [] } "a  b").1 =
      (let chained := applyChain idEnv.sub [("foo", "bar")] (toKey idEnv "a  b")
       let cleaned := collapseWs chained
       if cleaned = "" then "ECOLE_INCONNUE" else cleaned) :=
  C1_rule_chain_pipeline idEnv
    { mappings := [("Z", "W")], replacements := [("foo", "bar")],
      found_schools := [], normalization_stats := [] } "a  b"
    (by decide) (by decide)

/-! ### Claim C2 -/

/-- C2 counterexample: with the mapping table `{"A": "A"}` (loadable through
`load_mapping_file`), normalizing the raw name `"A"` returns the mapped
value but records nothing in the consolidation index, because
`_record_normalization` drops pairs whose original equals the normalized
value; the claim asserts `(rawName → value)` is always recorded. -/
theorem C2_identity_mapping_unrecorded :
    (normalize idEnv
        { mappings := [("A", "A")], replacements := defaultReplacements,
          found_schools := [], normalization_stats := [] } "A").1 = "A" ∧
    (normalize idEnv
        { mappings := [("A", "A")], replacements := defaultReplacements,
          found_schools := [], normalization_stats := [] } "A").2.normalization_stats = [] := by
  constructor
  · rfl
  · rfl

/-- C2 (amended): a mapping hit returns the entry's value, the rule chain
is never applied (the result is unchanged under replacing the whole rule
chain), and `(rawName → value)` is recorded in the consolidation index
whenever the raw name differs from the value. -/
theorem C2_mapping_short_circuit (env : PyEnv) (st : NormalizerState) (raw v : String)
    (h1 : raw ≠ "") (h2 : st.mappings.lookup (toKey env raw) = some v) :
    (normalize env st raw).1 = v ∧
    (∀ repl, (normalize env { st with replacements := repl } raw).1 = v) ∧
    (normalize env st raw).2.normalization_stats = recordNorm st.normalization_stats raw v ∧
    (raw ≠ v → raw ∈ statsGet (normalize env st raw).2.normalization_stats v) := by
  have key : ∀ repl, (normalize env { st with replacements := repl } raw) =
      (v, { st with
              replacements := repl,
              found_schools := insertNew st.found_schools raw,
              normalization_stats := recordNorm st.normalization_stats raw v }) := by
    intro repl
    unfold normalize
    rw [if_neg h1]
    dsimp only
    rw [h2]
  have base : normalize env st raw =
      (v, { st with
              found_schools := insertNew st.found_schools raw,
              normalization_stats := recordNorm st.normalization_stats raw v }) := by
    have := key st.replacements
    simpa using this
  refine ⟨by rw [base], fun repl => by rw [key repl], by rw [base], fun hne => ?_⟩
  rw [base]
  exact mem_statsGet_recordNorm _ _ _ hne

/-- C2 witness: the mapping `{"SAINTE X": "Y"}` hit by the raw name
`"sainte x"`. -/
theorem C2_mapping_short_circuit_witness :
    (normalize idEnv
        { mappings := [("SAINTE X", "Y")], replacements := defaultReplacements,
          found_schools := [], normalization_stats := [] } "sainte x").1 = "Y" ∧
    "sainte x" ∈ statsGet (normalize idEnv
        { mappings := [("SAINTE X", "Y")], replacements := defaultReplacements,
          found_schools := [], normalization_stats := [] } "sainte x").2.normalization_stats "Y" :=
  ⟨(C2_mapping_short_circuit idEnv
      { mappings := [("SAINTE X", "Y")], replacements := defaultReplacements,
        found_schools := [], normalization_stats := [] } "sainte x" "Y"
      (by decide) (by decide)).1,
   (C2_mapping_short_circuit idEnv
      { mappings := [("SAINTE X", "Y")], replacements := defaultReplacements,
        found_schools := [], normalization_stats := [] } "sainte x" "Y"
      (by decide) (by decide)).2.2.2 (by decide)⟩

/-! ### Claim C8 -/

/-- C8 counterexample: with no mappings and an empty rule chain (a state
reachable by loading a configuration with `replacements: []`), normalizing
`"X"` yields `"X"` itself; the raw name is added to the distinct-originals
set, but nothing is recorded in the consolidation index, contradicting the
claim's "including calls where the result equals the raw name". -/
theorem C8_identity_result_unrecorded :
    (normalize idEnv
        { mappings := [], replacements := [],
          found_schools := [], normalization_stats := [] } "X").1 = "X" ∧
    (normalize idEnv
        { mappings := [], replacements := [],
          found_schools := [], normalization_stats := [] } "X").2.found_schools = ["X"] ∧
    (normalize idEnv
        { mappings := [], replacements := [],
          found_schools := [], normalization_stats := [] } "X").2.normalization_stats = [] := by
  refine ⟨rfl, rfl, rfl⟩

/-- C8 (amended): for every non-empty raw name missing the mapping table,
after the rule chain produces a result the call adds the raw name to the
set of distinct originals seen, and records `(rawName → result)` in the
consolidation index exactly through `_record_normalization`, which indexes
the pair precisely when the result differs from the raw name. -/
theorem C8_records_after_chain (env : PyEnv) (st : NormalizerState) (raw : String)
    (h1 : raw ≠ "") (h2 : st.mappings.lookup (toKey env raw) = none) :
    (normalize env st raw).2.found_schools = insertNew st.found_schools raw ∧
    (normalize env st raw).2.normalization_stats =
      recordNorm st.normalization_stats raw (normalize env st raw).1 ∧
    (raw ≠ (normalize env st raw).1 →
      raw ∈ statsGet (normalize env st raw).2.normalization_stats (normalize env st raw).1) := by
  have base : normalize env st raw =
      (let chained := st.replacements.foldl (fun acc r => env.sub r.1 r.2 acc) (toKey env raw)
       let cleaned := collapseWs chained
       let result := if cleaned = "" then "ECOLE_INCONNUE" else cleaned
       (result,
        { st with
          found_schools := insertNew st.found_schools raw,
          normalization_stats := recordNorm st.normalization_stats raw result })) := by
    unfold normalize
    rw [if_neg h1]
    dsimp only
    rw [h2]
  rw [base]
  exact ⟨rfl, rfl, fun hne => mem_statsGet_recordNorm _ _ _ hne⟩

/-- C8 witness: the raw name `"ste a"` with an empty mapping table (the
result differs from the raw name, so the index entry is visible). -/
theorem C8_records_after_chain_witness :
    (normalize idEnv
        { mappings := [], replacements := [],
          found_schools := [], normalization_stats := [] } "ste a").2.found_schools =
      insertNew [] "ste a" ∧
    "ste a" ∈ statsGet (normalize idEnv
        { mappings := [], replacements := [],
          found_schools := [], normalization_stats := [] } "ste a").2.normalization_stats
      (normalize idEnv
        { mappings := [], replacements := [],
          found_schools := [], normalization_stats := [] } "ste a").1 :=
  ⟨(C8_records_after_chain idEnv
      { mappings := [], replacements := [],
        found_schools := [], normalization_stats := [] } "ste a"
      (by decide) (by decide)).1,
   (C8_records_after_chain idEnv
      { mappings := [], replacements := [],
        found_schools := [], normalization_stats := [] } "ste a"
      (by decide) (by decide)).2.2 (by decide)⟩

/-! ### Claim C9 -/

/-- C9 counterexample: the empty string is a name that can be passed to
`normalize`, yet it is never added to `found_schools` (the empty-input
branch records nothing), so it appears zero times — not exactly once — in
the exported school list. -/
theorem C9_empty_name_not_exported :
    exportSchools (runNames idEnv initState [""]) = [] ∧
    countStr "" (exportSchools (runNames idEnv initState [""])) = 0 := by
  refine ⟨rfl, rfl⟩

/-- C9 (amended): over any run started on a fresh engine, every non-empty
name passed to `normalize` appears exactly once in the exported school
list, which is sorted and contains no duplicates regardless of how many
times each name was normalized; empty names are never recorded. -/
theorem C9_export_roundtrip (env : PyEnv) (names : List String) :
    List.Sorted strLe (exportSchools (runNames env initState names)) ∧
    (exportSchools (runNames env initState names)).Nodup ∧
    ∀ n ∈ names, n ≠ "" → countStr n (exportSchools (runNames env initState names)) = 1 := by
  have hperm : (exportSchools (runNames env initState names)).Perm
      (runNames env initState names).found_schools :=
    List.perm_insertionSort strLe _
  have hnodup : (runNames env initState names).found_schools.Nodup :=
    runNames_found_nodup env names initState List.nodup_nil
  refine ⟨List.sorted_insertionSort strLe _, hperm.symm.nodup hnodup, ?_⟩
  intro n hn hne
  rw [countStr_perm n hperm]
  exact countStr_eq_one n _ hnodup (runNames_found_mem env names initState n hn hne)

/-- C9 witness: the run `["b", "a", "b"]` — the duplicate `"b"` still
appears exactly once. -/
theorem C9_export_roundtrip_witness :
    List.Sorted strLe (exportSchools (runNames idEnv initState ["b", "a", "b"])) ∧
    countStr "b" (exportSchools (runNames idEnv initState ["b", "a", "b"])) = 1 :=
  ⟨(C9_export_roundtrip idEnv ["b", "a", "b"]).1,
   (C9_export_roundtrip idEnv ["b", "a", "b"]).2.2 "b" (by decide) (by decide)⟩

/-! ### The tabular extractor (`MealOrderExtractor._extract_table_data`) -/

/-- An openpyxl cell value as seen with `data_only=True`: empty (`None`), a
string, an integer, or a float.  Floats are modelled by the exact rational
value of the IEEE double; the two operations performed on them — the
comparison `quantite > 0` and the truncation `int(quantite)` — are exact on
that value. -/
inductive Cell where
  | none
  | str (s : String)
  | int (n : Int)
  | float (q : ℚ)
deriving DecidableEq

/-- Python truthiness of a cell value (`None`, `''`, `0` and `0.0` are
falsy). -/
def cellFalsy : Cell → Bool
  | .none => true
  | .str s => s = ""
  | .int n => n = 0
  | .float q => q = 0

/-- Python `str(cell)`.  The rendering of a float differs in detail from
CPython's `repr`; no comparison modelled below ever inspects it. -/
def pyStr : Cell → String
  | .none => "None"
  | .str s => s
  | .int n => toString n
  | .float q => toString q

/-- `str(row[0] or '')`: the first-cell text, with falsy cells read as the
empty string. -/
def pyStrOr (c : Cell) : String := if cellFalsy c then "" else pyStr c

/-- The weekday header keywords of line 351. -/
def weekdaysU : List String := ["LUNDI", "MARDI", "MERCREDI", "JEUDI", "VENDREDI"]

/-- The weekday-header test of lines 349-351: a truthy string cell whose
`upper().strip()` is a weekday name (returning that normalized name). -/
def weekCell (c : Cell) : Option String :=
  match c with
  | .str s =>
    if s = "" then Option.none
    else
      let u := pyStrip (pyUpper s)
      if u ∈ weekdaysU then some u else Option.none
  | _ => Option.none

/-- The weekday cells of an indexed row: (column, normalized weekday name)
pairs, in column order. -/
def rowWeekL : List (Nat × Cell) → List (Nat × String)
  | [] => []
  | ic :: rest =>
    match weekCell ic.2 with
    | some w => (ic.1, w) :: rowWeekL rest
    | Option.none => rowWeekL rest

/-- The weekday cells of a row, with their 0-based column indices. -/
def rowWeek (row : List Cell) : List (Nat × String) := rowWeekL row.enum

/-- In-place `dict` insert for `jours_colonnes`: overwrite the value at an
existing key, else append a fresh entry. -/
def dictInsert : List (Nat × String) → Nat → String → List (Nat × String)
  | [], k, v => [(k, v)]
  | (k', v') :: rest, k, v =>
    if k' = k then (k, v) :: rest else (k', v') :: dictInsert rest k v

/-- Fold a batch of (column, weekday) pairs into the dictionary. -/
def dictInsertMany (jc : List (Nat × String)) (l : List (Nat × String)) : List (Nat × String) :=
  l.foldl (fun acc kv => dictInsert acc kv.1 kv.2) jc

/-- The inner cell loop of the header scan (lines 348-354): each weekday
cell sets `header_row` to the current row index if still unset and writes
its column into `jours_colonnes`. -/
def scanCells : List (Nat × Cell) → Nat → Option Nat → List (Nat × String) →
    Option Nat × List (Nat × String)
  | [], _, hr, jc => (hr, jc)
  | ic :: rest, idx, hr, jc =>
    match weekCell ic.2 with
    | some w => scanCells rest idx (some (hr.getD idx)) (dictInsert jc ic.1 w)
    | Option.none => scanCells rest idx hr jc

/-- The row loop of the header scan (lines 347-357), 1-based row indices:
after fully processing a row, the loop breaks when a header row exists and
the just-processed row lies strictly after it. -/
def scanRows : List (List Cell) → Nat → Option Nat → List (Nat × String) →
    Option Nat × List (Nat × String)
  | [], _, hr, jc => (hr, jc)
  | row :: rows, idx, hr, jc =>
    let p := scanCells row.enum idx hr jc
    match p.1 with
    | some h => if h < idx then p else scanRows rows (idx + 1) p.1 p.2
    | Option.none => scanRows rows (idx + 1) p.1 p.2

/-- Header detection over a whole sheet: `(header_row, jours_colonnes)`. -/
def headerScan (sheet : List (List Cell)) : Option Nat × List (Nat × String) :=
  scanRows sheet 1 Option.none []

/-- The meal-type keywords of line 370. -/
def typesU : List String := ["ENFANTS", "ADULTES", "MATERNELLE"]

/-- The category keywords of line 363. -/
def categories : List String := ["Standard", "Sans porc", "Végétarien", "Halal"]

/-- One row of the table extracted by `_extract_table_data` (the per-sheet
fields `ecole`, `agent`, `periode`, `source_fichier` are merged in later by
`extract_from_excel` and do not depend on the table walk). -/
structure TRecord where
  type_repas : Option String
  categorie : String
  jour_semaine : String
  quantite : Int
deriving DecidableEq

/-- The numeric reading of a cell: `isinstance(quantite, (int, float))`. -/
def cellQ : Cell → Option ℚ
  | .int n => some (n : ℚ)
  | .float q => some q
  | _ => Option.none

/-- Python `int()` on a float value: truncation toward zero. -/
def pyInt (q : ℚ) : Int := Int.tdiv q.num q.den

/-- Lines 380-390: read the quantity cell of one recorded weekday column.
`row[cj.1]?` models the `row[col_idx]` access whose `IndexError` the
`try/except` turns into `continue`; a non-numeric cell or a non-positive
value contributes nothing. -/
def cellRecords (tr : Option String) (cat : String) (row : List Cell) (cj : Nat × String) :
    List TRecord :=
  match row[cj.1]? with
  | Option.none => []
  | some c =>
    match cellQ c with
    | Option.none => []
    | some q => if 0 < q then [⟨tr, cat, pyTitle cj.2, pyInt q⟩] else []

/-- The quantity loop over all recorded weekday columns of a category row. -/
def rowRecords (jc : List (Nat × String)) (tr : Option String) (cat : String)
    (row : List Cell) : List TRecord :=
  jc.flatMap (cellRecords tr cat row)

/-- The body state machine of lines 366-390: a meal-type row updates
`current_type` and carries no quantities; a category row appends its
quantity records; any other row is skipped. -/
def bodyStep (jc : List (Nat × String)) (acc : Option String × List TRecord)
    (row : List Cell) : Option String × List TRecord :=
  let first_cell := pyStrip (pyStrOr (row.headD Cell.none))
  if pyUpper first_cell ∈ typesU then (some (pyTitle first_cell), acc.2)
  else if first_cell ∈ categories then (acc.1, acc.2 ++ rowRecords jc acc.1 first_cell row)
  else acc

/-- The body parse, starting with no type context and no records. -/
def bodyParse (jc : List (Nat × String)) (rows : List (List Cell)) : List TRecord :=
  (rows.foldl (bodyStep jc) (Option.none, [])).2

/-- `MealOrderExtractor._extract_table_data` on one sheet: header scan,
empty result when no weekday column was recorded, otherwise the body parse
over the rows strictly after the header row (`min_row = header_row + 1`).
The `Option.none` header branch is unreachable when `jours_colonnes` is
non-empty, matching the source where `header_row` is necessarily set. -/
def extract_table_data (sheet : List (List Cell)) : List TRecord :=
  let p := headerScan sheet
  if p.2 = [] then []
  else
    match p.1 with
    | some h => bodyParse p.2 (sheet.drop h)
    | Option.none => []

/-! ### Helper lemmas about the tabular extractor -/

theorem dictInsertMany_nil (jc : List (Nat × String)) : dictInsertMany jc [] = jc := rfl

theorem dictInsertMany_cons (jc : List (Nat × String)) (kv : Nat × String)
    (l : List (Nat × String)) :
    dictInsertMany jc (kv :: l) = dictInsertMany (dictInsert jc kv.1 kv.2) l := rfl

/-- The cell loop in one equation: the header row is set to the current row
index exactly when the row holds a weekday cell and none was set before,
and every weekday cell of the row is written into the dictionary. -/
theorem scanCells_spec : ∀ (l : List (Nat × Cell)) (idx : Nat) (hr : Option Nat)
    (jc : List (Nat × String)),
    scanCells l idx hr jc =
      ((if rowWeekL l = [] then hr else some (hr.getD idx)), dictInsertMany jc (rowWeekL l))
  | [], idx, hr, jc => by simp [scanCells, rowWeekL, dictInsertMany]
  | ic :: rest, idx, hr, jc => by
    cases hw : weekCell ic.2 with
    | none =>
      simp only [scanCells, hw, rowWeekL]
      exact scanCells_spec rest idx hr jc
    | some w =>
      simp only [scanCells, hw, rowWeekL]
      rw [scanCells_spec rest idx (some (hr.getD idx)) (dictInsert jc ic.1 w)]
      simp [dictInsertMany_cons]

/-- Once a header row strictly before the current index exists, the row
loop processes exactly one more row (recording its weekday cells) and
stops; later rows are never scanned. -/
theorem scanRows_stop (rows : List (List Cell)) (idx h : Nat)
    (jc : List (Nat × String)) (hlt : h < idx) :
    scanRows rows idx (some h) jc = (some h, dictInsertMany jc (rowWeek (rows.headD []))) := by
  cases rows with
  | nil => simp [scanRows, rowWeek, rowWeekL, dictInsertMany_nil]
  | cons row rest =>
    simp only [scanRows, scanCells_spec]
    by_cases hw : rowWeekL row.enum = []
    · simp [hw, hlt, rowWeek, dictInsertMany_nil]
    · simp [hw, hlt, rowWeek]

/-- A sheet whose rows carry no weekday cell leaves the header scan with no
header row and an empty dictionary. -/
theorem scanRows_none : ∀ (rows : List (List Cell)),
    (∀ p ∈ rows, rowWeek p = []) → ∀ (idx : Nat) (jc : List (Nat × String)),
    scanRows rows idx Option.none jc = (Option.none, jc)
  | [], _ => by intro idx jc; simp [scanRows]
  | row :: rows, h => by
    intro idx jc
    have hrow : rowWeekL row.enum = [] := h row (List.mem_cons_self row rows)
    simp only [scanRows, scanCells_spec, hrow, if_pos]
    simpa [dictInsertMany, hrow] using
      scanRows_none rows (fun p hp => h p (List.mem_cons_of_mem row hp)) (idx + 1) jc

/-- The row loop on a sheet whose first weekday cell occurs in row
`pre.length + idx` (1-based from `idx`): the rows before it contribute
nothing, the first weekday row becomes the header row, the single row after
it is still fully scanned, and nothing beyond is ever read. -/
theorem scanRows_found (r : List Cell) (rest : List (List Cell)) (hr : rowWeek r ≠ []) :
    ∀ (pre : List (List Cell)), (∀ p ∈ pre, rowWeek p = []) →
    ∀ (idx : Nat) (jc : List (Nat × String)),
    scanRows (pre ++ r :: rest) idx Option.none jc =
      (some (idx + pre.length),
       dictInsertMany (dictInsertMany jc (rowWeek r)) (rowWeek (rest.headD [])))
  | [], _ => by
    intro idx jc
    have hne : rowWeekL r.enum ≠ [] := by simpa [rowWeek] using hr
    simp only [List.nil_append, scanRows, scanCells_spec, if_neg hne, Option.getD_none,
      lt_self_iff_false, if_false]
    rw [scanRows_stop rest (idx + 1) idx _ (Nat.lt_succ_self idx)]
    simp [rowWeek]
  | p0 :: ps, h => by
    intro idx jc
    have hrow : rowWeekL p0.enum = [] := h p0 (List.mem_cons_self p0 ps)
    simp only [List.cons_append, scanRows, scanCells_spec, hrow, if_pos, dictInsertMany_nil,
      List.append_eq]
    rw [scanRows_found r rest hr ps (fun p hp => h p (List.mem_cons_of_mem p0 hp)) (idx + 1) jc]
    have harith : idx + 1 + ps.length = idx + (p0 :: ps).length := by
      simp only [List.length_cons]
      omega
    rw [harith]

/-- Records produced by the quantity loop of a category row all carry that
row's category. -/
theorem rowRecords_cat (jc : List (Nat × String)) (tr : Option String) (cat : String)
    (row : List Cell) : ∀ rec ∈ rowRecords jc tr cat row, rec.categorie = cat := by
  intro rec hrec
  rcases List.mem_flatMap.mp hrec with ⟨cj, _, hmem⟩
  unfold cellRecords at hmem
  rcases hget : row[cj.1]? with _ | c
  · simp only [hget] at hmem
    exact absurd hmem (List.not_mem_nil rec)
  simp only [hget] at hmem
  rcases hq : cellQ c with _ | q
  · simp only [hq] at hmem
    exact absurd hmem (List.not_mem_nil rec)
  simp only [hq] at hmem
  by_cases hpos : 0 < q
  · rw [if_pos hpos] at hmem
    rw [List.mem_singleton.mp hmem]
  · rw [if_neg hpos] at hmem
    exact absurd hmem (List.not_mem_nil rec)

/-- The body parse only emits records whose category is one of the four
category keywords the row's first cell was compared against. -/
theorem bodyParse_cat (jc : List (Nat × String)) :
    ∀ (rows : List (List Cell)) (acc : Option String × List TRecord),
    (∀ rec ∈ acc.2, rec.categorie ∈ categories) →
    ∀ rec ∈ (rows.foldl (bodyStep jc) acc).2, rec.categorie ∈ categories
  | [], acc => fun h => h
  | row :: rows, acc => by
    intro h
    rw [List.foldl_cons]
    refine bodyParse_cat jc rows (bodyStep jc acc row) ?_
    unfold bodyStep
    dsimp only
    split
    · exact h
    · split
      · next hcat =>
        intro rec hrec
        rcases List.mem_append.mp hrec with hm | hm
        · exact h rec hm
        · rw [rowRecords_cat jc acc.1 _ row rec hm]
          exact hcat
      · exact h

/-- Every record of the tabular extractor carries one of the four category
keywords. -/
theorem extract_table_cat (sheet : List (List Cell)) :
    ∀ rec ∈ extract_table_data sheet, rec.categorie ∈ categories := by
  unfold extract_table_data
  dsimp only
  split
  · intro rec hrec; exact absurd hrec (List.not_mem_nil rec)
  · split
    · exact bodyParse_cat _ _ _ (fun rec hrec => absurd hrec (List.not_mem_nil rec))
    · intro rec hrec; exact absurd hrec (List.not_mem_nil rec)

/-! ### Claim C3 -/

/-- The rational value 1/2, the exact value of the IEEE double `0.5`. -/
def floatHalf : ℚ := Rat.mk' 1 2 (by decide) (by decide)

/-- C3 is violated by the code: on a sheet whose `LUNDI` column holds the
float `0.5` in a `Standard` row, the guard `quantite > 0` passes but
`int(quantite)` truncates to `0`, so a record with quantity `0` is emitted
(and would be persisted), contradicting the claimed invariant
`quantity > 0`. -/
theorem C3_float_cell_zero_quantity :
    extract_table_data
        [[Cell.none, Cell.str "LUNDI"], [Cell.str "Standard", Cell.float floatHalf]] =
      [{ type_repas := Option.none, categorie := "Standard",
         jour_semaine := "Lundi", quantite := 0 }] := by decide

/-! ### Claim C6 -/

/-- C6 counterexample: on the sheet `[["LUNDI"], [None, "MARDI"]]` the
header row is row 1, whose only weekday cell sits in column 0 — yet the
recorded weekday columns also contain `(1, "MARDI")`, coming from the row
after the header row, which is fully scanned before the loop breaks.  The
recorded indices are therefore not exactly those of the header row's
weekday cells. -/
theorem C6_row_after_header_also_recorded :
    headerScan [[Cell.str "LUNDI"], [Cell.none, Cell.str "MARDI"]] =
      (some 1, [(0, "LUNDI"), (1, "MARDI")]) ∧
    rowWeek [Cell.str "LUNDI"] = [(0, "LUNDI")] := by decide

/-- C6 (amended): the first row containing a weekday cell becomes the
header row; the recorded weekday-column indices are exactly those of the
weekday cells of the header row together with those of the single row
immediately after it (that row is fully processed before the scan stops,
and rows beyond it are never scanned); if no weekday cell exists in the
sheet, the body parse emits no records. -/
theorem C6_header_detection :
    (∀ (pre : List (List Cell)) (r : List Cell) (rest : List (List Cell)),
      (∀ p ∈ pre, rowWeek p = []) → rowWeek r ≠ [] →
      headerScan (pre ++ r :: rest) =
        (some (pre.length + 1),
         dictInsertMany (dictInsertMany [] (rowWeek r)) (rowWeek (rest.headD [])))) ∧
    (∀ sheet : List (List Cell), (∀ p ∈ sheet, rowWeek p = []) →
      extract_table_data sheet = []) := by
  constructor
  · intro pre r rest hpre hr
    rw [headerScan, scanRows_found r rest hr pre hpre 1 [], Nat.add_comm]
  · intro sheet h
    unfold extract_table_data headerScan
    rw [scanRows_none sheet h 1 []]
    simp

/-- C6 witness: a sheet with one weekday-free row, a `LUNDI` header row, a
following `MARDI` row and a further `JEUDI` row that is never scanned. -/
theorem C6_header_detection_witness :
    headerScan [[Cell.str "x"], [Cell.str "LUNDI"],
        [Cell.none, Cell.str "MARDI"], [Cell.str "JEUDI"]] =
      (some 2,
       dictInsertMany (dictInsertMany [] (rowWeek [Cell.str "LUNDI"]))
         (rowWeek ([[Cell.none, Cell.str "MARDI"], [Cell.str "JEUDI"]].headD []))) ∧
    extract_table_data [[Cell.str "q"]] = [] :=
  ⟨by
    have h := (C6_header_detection).1 [[Cell.str "x"]] [Cell.str "LUNDI"]
      [[Cell.none, Cell.str "MARDI"], [Cell.str "JEUDI"]] (by decide) (by decide)
    simpa using h,
   (C6_header_detection).2 [[Cell.str "q"]] (by decide)⟩

/-! ### Claim C10 -/

/-- C10: the quantity loop of the body parse is total and guarded per cell:
a recorded weekday column lying beyond the row's length (the `IndexError`
case) contributes nothing while the remaining columns are still read, and
likewise a cell holding a non-numeric value is silently skipped with the
rest of the row still processed. -/
theorem C10_cell_guard :
    (∀ (tr : Option String) (cat : String) (row : List Cell)
        (jc1 jc2 : List (Nat × String)) (col : Nat) (j : String),
      row.length ≤ col →
      rowRecords (jc1 ++ (col, j) :: jc2) tr cat row =
        rowRecords jc1 tr cat row ++ rowRecords jc2 tr cat row) ∧
    (∀ (tr : Option String) (cat : String) (row : List Cell)
        (jc1 jc2 : List (Nat × String)) (col : Nat) (j : String) (c : Cell),
      row[col]? = some c → cellQ c = Option.none →
      rowRecords (jc1 ++ (col, j) :: jc2) tr cat row =
        rowRecords jc1 tr cat row ++ rowRecords jc2 tr cat row) := by
  constructor
  · intro tr cat row jc1 jc2 col j hlen
    have hcell : cellRecords tr cat row (col, j) = [] := by
      unfold cellRecords
      rw [List.getElem?_eq_none hlen]
    simp [rowRecords, List.flatMap_append, hcell]
  · intro tr cat row jc1 jc2 col j c hget hq
    have hcell : cellRecords tr cat row (col, j) = [] := by
      unfold cellRecords
      simp only [hget, hq]
    simp [rowRecords, List.flatMap_append, hcell]

/-- C10 witness: a row of length 2 read at the out-of-range column 9
between two other recorded columns, and a string quantity cell at column 0
— both skipped with the surrounding columns still processed. -/
theorem C10_cell_guard_witness :
    (rowRecords ([(1, "MARDI")] ++ (9, "LUNDI") :: [(0, "JEUDI")]) (some "Enfants") "Standard"
        [Cell.str "Standard", Cell.int 5] =
      rowRecords [(1, "MARDI")] (some "Enfants") "Standard" [Cell.str "Standard", Cell.int 5] ++
      rowRecords [(0, "JEUDI")] (some "Enfants") "Standard" [Cell.str "Standard", Cell.int 5]) ∧
    (rowRecords ([(1, "MARDI")] ++ (0, "LUNDI") :: [(1, "JEUDI")]) Option.none "Halal"
        [Cell.str "Standard", Cell.int 5] =
      rowRecords [(1, "MARDI")] Option.none "Halal" [Cell.str "Standard", Cell.int 5] ++
      rowRecords [(1, "JEUDI")] Option.none "Halal" [Cell.str "Standard", Cell.int 5]) :=
  ⟨C10_cell_guard.1 (some "Enfants") "Standard" [Cell.str "Standard", Cell.int 5]
      [(1, "MARDI")] [(0, "JEUDI")] 9 "LUNDI" (by decide),
   C10_cell_guard.2 Option.none "Halal" [Cell.str "Standard", Cell.int 5]
      [(1, "MARDI")] [(1, "JEUDI")] 0 "LUNDI" (Cell.str "Standard") (by decide) (by decide)⟩

/-! ### The text-block extractor (`MealOrderExtractor.extract_from_pdf`)

The five regexes of lines 311-317 all have the shape
`kw\s+(\d+)\s+(\d+)\s+(\d+)\s+(\d+)` except the `Enfants` one, which is
`Enfants.*?(\d+)\s+(\d+)\s+(\d+)\s+(\d+)`.  They are embedded as concrete
parsers over character lists: for this pattern shape greedy matching
without backtracking is exact (after a maximal digit run the next character
cannot be a digit, after a maximal whitespace run it cannot be whitespace),
the lazy `.*?` is the shortest non-newline gap after which the four groups
match, and `re.search` takes the leftmost start position at which the whole
pattern matches.  `\d` and `\s` are modelled with their ASCII semantics. -/

/-- Value of a digit run, `int(group)`. -/
def digitsVal (ds : List Char) : Nat := ds.foldl (fun a c => a * 10 + (c.toNat - 48)) 0

/-- Greedy `(\d+)` at the current position: value and rest. -/
def num1 (cs : List Char) : Option (Nat × List Char) :=
  let p := cs.span Char.isDigit
  if p.1 = [] then Option.none else some (digitsVal p.1, p.2)

/-- Greedy `\s+` at the current position: rest after the whitespace run. -/
def spaces1 (cs : List Char) : Option (List Char) :=
  let p := cs.span isPySpace
  if p.1 = [] then Option.none else some p.2

/-- `(\d+)\s+(\d+)\s+(\d+)\s+(\d+)` at the current position: the four
captured numeric groups. -/
def nums4 (cs : List Char) : Option (List Nat) :=
  match num1 cs with
  | Option.none => Option.none
  | some (a, r1) =>
    match spaces1 r1 with
    | Option.none => Option.none
    | some r1b =>
      match num1 r1b with
      | Option.none => Option.none
      | some (b, r2) =>
        match spaces1 r2 with
        | Option.none => Option.none
        | some r2b =>
          match num1 r2b with
          | Option.none => Option.none
          | some (c, r3) =>
            match spaces1 r3 with
            | Option.none => Option.none
            | some r3b =>
              match num1 r3b with
              | Option.none => Option.none
              | some (d, _) => some [a, b, c, d]

/-- The lazy `.*?` before the groups of the `Enfants` pattern: try the four
groups ever further right, consuming only non-newline characters. -/
def gapScan : List Char → Option (List Nat)
  | [] => nums4 []
  | c :: t =>
    match nums4 (c :: t) with
    | some r => some r
    | Option.none => if c = '\n' then Option.none else gapScan t

/-- Literal match of `kw` at the current position, returning the rest. -/
def dropPre : List Char → List Char → Option (List Char)
  | [], cs => some cs
  | _ :: _, [] => Option.none
  | a :: as, b :: bs => if a = b then dropPre as bs else Option.none

/-- Literal prefix test. -/
def hasPre : List Char → List Char → Bool
  | [], _ => true
  | _ :: _, [] => false
  | a :: as, b :: bs => a = b && hasPre as bs

/-- Python `needle in haystack` on character lists. -/
def subIn (needle : List Char) : List Char → Bool
  | [] => hasPre needle []
  | c :: t => hasPre needle (c :: t) || subIn needle t

/-- The two shapes of quantity pattern. -/
inductive PatKind where
  | gap
  | spaced
deriving DecidableEq

/-- Whole-pattern match at one start position. -/
def matchAt (k : PatKind) (kw cs : List Char) : Option (List Nat) :=
  match dropPre kw cs with
  | Option.none => Option.none
  | some rest =>
    match k with
    | .gap => gapScan rest
    | .spaced =>
      match spaces1 rest with
      | Option.none => Option.none
      | some r => nums4 r

/-- `re.search`: the leftmost start position at which the whole pattern
matches. -/
def patSearch (k : PatKind) (kw : List Char) : List Char → Option (List Nat)
  | [] => matchAt k kw []
  | c :: t =>
    match matchAt k kw (c :: t) with
    | some r => some r
    | Option.none => patSearch k kw t

/-- The category/pattern table of lines 311-317, in `dict` insertion
order.  Note the `Enfants` entry: the text extractor scans it like any
other category. -/
def patterns : List (String × PatKind) :=
  [("Enfants", PatKind.gap), ("Standard", PatKind.spaced), ("Sans porc", PatKind.spaced),
   ("Végétarien", PatKind.spaced), ("Halal", PatKind.spaced)]

/-- `jours` of line 319. -/
def jours : List String := ["Lundi", "Mardi", "Mercredi", "Jeudi", "Vendredi"]

/-- The category names the text extractor can emit. -/
def pdfCats : List String := ["Enfants", "Standard", "Sans porc", "Végétarien", "Halal"]

/-- Lines 321-335 without the per-sheet fields: for each category whose
pattern matches, zip the captured quantities positionally with the first
`len(quantites)` weekdays and keep the strictly positive ones, as
`(category, weekday, quantity)` triples. -/
def pageQuantTriples (text : List Char) : List (String × String × Nat) :=
  patterns.flatMap fun p =>
    match patSearch p.2 p.1.toList text with
    | Option.none => []
    | some qs =>
      ((jours.take qs.length).zip qs).filterMap fun jq =>
        if 0 < jq.2 then some (p.1, jq.1, jq.2) else Option.none

/-- `text.split('\n')` (keeping empty lines). -/
def splitLinesAux : List Char → List Char → List (List Char)
  | [], acc => [acc.reverse]
  | c :: cs, acc =>
    if c = '\n' then acc.reverse :: splitLinesAux cs [] else splitLinesAux cs (c :: acc)

/-- All lines of a page text. -/
def splitLines (cs : List Char) : List (List Char) := splitLinesAux cs []

/-- `re.search(":\s*(.+)", line)` followed by `.group(1).strip()`: the
leftmost colon with at least one character after it on the line yields the
stripped remainder (the stripped value is empty when only whitespace
follows the colon). -/
def colonValue : List Char → Option String
  | [] => Option.none
  | c :: t =>
    if c = ':' then
      if t = [] then Option.none else some (pyStrip ⟨t⟩)
    else colonValue t

/-- The header scan of lines 292-302: line by line, a line containing
`RESTAURANT` or `ECOLE` (uppercased) with a colon match updates the school
name, a line containing `AGENT` with a colon match updates the agent name;
the last match wins. -/
def scanMeta (lines : List (List Char)) : Option String × Option String :=
  lines.foldl
    (fun acc line =>
      let u := line.map Char.toUpper
      let sch :=
        if subIn "RESTAURANT".toList u || subIn "ECOLE".toList u then
          match colonValue line with
          | some v => some v
          | Option.none => acc.1
        else acc.1
      let ag :=
        if subIn "AGENT".toList u then
          match colonValue line with
          | some v => some v
          | Option.none => acc.2
        else acc.2
      (sch, ag))
    (Option.none, Option.none)

/-- One record of the text-block extractor. -/
structure PdfR where
  ecole : String
  ecole_normalized : String
  agent : Option String
  jour_semaine : String
  categorie : String
  quantite : Nat
  source_fichier : String
deriving DecidableEq

/-- The body of the page loop of `extract_from_pdf`: empty text is skipped
(`if not text: continue`); otherwise the header lines are scanned, the
school name falls back to the file stem when absent or empty, it is
normalized (mutating the engine state), and one record is emitted per
positive captured quantity of each matched category pattern. -/
def pdfPage (env : PyEnv) (stem fname : String) (st : NormalizerState) (text : String) :
    List PdfR × NormalizerState :=
  if text = "" then ([], st)
  else
    let meta := scanMeta (splitLines text.toList)
    let school :=
      match meta.1 with
      | some s => if s = "" then stem else s
      | Option.none => stem
    let norm := normalize env st school
    ((pageQuantTriples text.toList).map fun t =>
      { ecole := school, ecole_normalized := norm.1, agent := meta.2,
        jour_semaine := t.2.1, categorie := t.1, quantite := t.2.2,
        source_fichier := fname },
     norm.2)

/-- `MealOrderExtractor.extract_from_pdf`: accumulate the page records over
all pages, threading the normalizer state. -/
def extract_from_pdf (env : PyEnv) (stem fname : String) (pages : List String)
    (st : NormalizerState) : List PdfR × NormalizerState :=
  pages.foldl
    (fun acc page =>
      let r := pdfPage env stem fname acc.2 page
      (acc.1 ++ r.1, r.2))
    ([], st)

/-! ### Helper lemmas about the text-block extractor -/

/-- Every successful group capture consists of exactly four numbers. -/
theorem nums4_length (cs : List Char) (qs : List Nat) (h : nums4 cs = some qs) :
    qs.length = 4 := by
  unfold nums4 at h
  repeat' split at h
  all_goals simp_all
  all_goals rw [← h]
  all_goals rfl

theorem gapScan_length : ∀ (cs : List Char) (qs : List Nat),
    gapScan cs = some qs → qs.length = 4
  | [], qs, h => nums4_length [] qs h
  | c :: t, qs, h => by
    unfold gapScan at h
    cases hn : nums4 (c :: t) with
    | some r =>
      rw [hn] at h
      exact nums4_length (c :: t) qs (hn.trans h)
    | none =>
      simp only [hn] at h
      split at h
      · exact absurd h (by simp)
      · exact gapScan_length t qs h

theorem matchAt_length (k : PatKind) (kw cs : List Char) (qs : List Nat)
    (h : matchAt k kw cs = some qs) : qs.length = 4 := by
  unfold matchAt at h
  cases hd : dropPre kw cs with
  | none => simp [hd] at h
  | some rest =>
    simp only [hd] at h
    cases k with
    | gap => exact gapScan_length rest qs h
    | spaced =>
      cases hs : spaces1 rest with
      | none => simp [hs] at h
      | some r =>
        simp only [hs] at h
        exact nums4_length r qs h

theorem patSearch_length (k : PatKind) (kw : List Char) : ∀ (text : List Char) (qs : List Nat),
    patSearch k kw text = some qs → qs.length = 4
  | [], qs, h => matchAt_length k kw [] qs h
  | c :: t, qs, h => by
    unfold patSearch at h
    cases hm : matchAt k kw (c :: t) with
    | some r =>
      rw [hm] at h
      exact matchAt_length k kw (c :: t) qs (hm.trans h)
    | none =>
      simp only [hm] at h
      exact patSearch_length k kw t qs h

/-- Every triple the quantity scan emits carries one of the first four
weekdays and a strictly positive quantity. -/
theorem pageQuantTriples_mem (text : List Char) :
    ∀ t ∈ pageQuantTriples text,
      t.2.1 ∈ ["Lundi", "Mardi", "Mercredi", "Jeudi"] ∧ 0 < t.2.2 := by
  intro t ht
  rcases List.mem_flatMap.mp ht with ⟨p, hp, hmem⟩
  cases hs : patSearch p.2 p.1.toList text with
  | none => simp only [hs] at hmem; exact absurd hmem (List.not_mem_nil t)
  | some qs =>
    simp only [hs] at hmem
    rcases List.mem_filterMap.mp hmem with ⟨jq, hjq, heq⟩
    by_cases hpos : 0 < jq.2
    · rw [if_pos hpos] at heq
      cases heq
      have h4 : qs.length = 4 := patSearch_length p.2 p.1.toList text qs hs
      rw [h4] at hjq
      have hj : jq.1 ∈ jours.take 4 := (List.of_mem_zip hjq).1
      constructor
      · simpa [jours] using hj
      · exact hpos
    · rw [if_neg hpos] at heq
      exact absurd heq (by simp)

/-- Every triple's category comes from the pattern table. -/
theorem pageQuantTriples_catmem (text : List Char) :
    ∀ t ∈ pageQuantTriples text, t.1 ∈ pdfCats := by
  intro t ht
  rcases List.mem_flatMap.mp ht with ⟨p, hp, hmem⟩
  cases hs : patSearch p.2 p.1.toList text with
  | none => simp only [hs] at hmem; exact absurd hmem (List.not_mem_nil t)
  | some qs =>
    simp only [hs] at hmem
    rcases List.mem_filterMap.mp hmem with ⟨jq, hjq, heq⟩
    by_cases hpos : 0 < jq.2
    · rw [if_pos hpos] at heq
      cases heq
      have hfst : p.1 ∈ patterns.map Prod.fst := List.mem_map_of_mem Prod.fst hp
      simpa [patterns, pdfCats] using hfst
    · rw [if_neg hpos] at heq
      exact absurd heq (by simp)

/-- Every record of one page carries a category from the pattern table. -/
theorem pdfPage_cat (env : PyEnv) (stem fname : String) (st : NormalizerState)
    (text : String) : ∀ r ∈ (pdfPage env stem fname st text).1, r.categorie ∈ pdfCats := by
  unfold pdfPage
  split
  · intro r hr; exact absurd hr (List.not_mem_nil r)
  · dsimp only
    intro r hr
    rcases List.mem_map.mp hr with ⟨t, ht, heq⟩
    rw [← heq]
    exact pageQuantTriples_catmem text.toList t ht

/-- The page fold preserves the category vocabulary. -/
theorem extract_pdf_fold_cat (env : PyEnv) (stem fname : String) :
    ∀ (pages : List String) (acc : List PdfR × NormalizerState),
    (∀ r ∈ acc.1, r.categorie ∈ pdfCats) →
    ∀ r ∈ (pages.foldl
        (fun acc page =>
          let q := pdfPage env stem fname acc.2 page
          (acc.1 ++ q.1, q.2)) acc).1,
      r.categorie ∈ pdfCats
  | [], acc => fun h => h
  | page :: pages, acc => by
    intro h
    rw [List.foldl_cons]
    refine extract_pdf_fold_cat env stem fname pages _ ?_
    intro r hr
    rcases List.mem_append.mp hr with hm | hm
    · exact h r hm
    · exact pdfPage_cat env stem fname acc.2 page r hm

/-! ### Claim C5 -/

/-- C5: every record of a text-block page carries one of the first four
weekdays (never `Vendredi` — `jours[:len(quantites)]` with four captured
groups) and a strictly positive quantity; on the page
`"Standard 4 0 2 1"` exactly the three records for Monday, Wednesday
and Thursday are produced, the zero capture being skipped. -/
theorem C5_pdf_weekday_mapping :
    (∀ (env : PyEnv) (stem fname : String) (st : NormalizerState) (text : String),
      ∀ r ∈ (pdfPage env stem fname st text).1,
        r.jour_semaine ∈ ["Lundi", "Mardi", "Mercredi", "Jeudi"] ∧
        r.jour_semaine ≠ "Vendredi" ∧ 0 < r.quantite) ∧
    (pdfPage idEnv "doc" "doc.pdf" initState "Standard 4 0 2 1").1 =
      [{ ecole := "doc", ecole_normalized := "DOC", agent := Option.none,
         jour_semaine := "Lundi", categorie := "Standard", quantite := 4,
         source_fichier := "doc.pdf" },
       { ecole := "doc", ecole_normalized := "DOC", agent := Option.none,
         jour_semaine := "Mercredi", categorie := "Standard", quantite := 2,
         source_fichier := "doc.pdf" },
       { ecole := "doc", ecole_normalized := "DOC", agent := Option.none,
         jour_semaine := "Jeudi", categorie := "Standard", quantite := 1,
         source_fichier := "doc.pdf" }] := by
  constructor
  · intro env stem fname st text r hr
    have hmem : r.jour_semaine ∈ ["Lundi", "Mardi", "Mercredi", "Jeudi"] ∧ 0 < r.quantite := by
      revert hr
      unfold pdfPage
      split
      · intro hr; exact absurd hr (List.not_mem_nil r)
      · dsimp only
        intro hr
        rcases List.mem_map.mp hr with ⟨t, ht, heq⟩
        have := pageQuantTriples_mem text.toList t ht
        rw [← heq]
        exact this
    refine ⟨hmem.1, ?_, hmem.2⟩
    intro hv
    rw [hv] at hmem
    exact absurd hmem.1 (by decide)
  · decide

/-- The Monday record emitted by the page `"Halal 1 0 0 2"` on a fresh
engine with file stem `s`. -/
def c5rec : PdfR :=
  { ecole := "s", ecole_normalized := "S", agent := Option.none,
    jour_semaine := "Lundi", categorie := "Halal", quantite := 1,
    source_fichier := "s.pdf" }

/-- C5 witness: the page `"Halal 1 0 0 2"` emits a Monday record with
positive quantity. -/
theorem C5_pdf_weekday_mapping_witness :
    c5rec.jour_semaine ∈ ["Lundi", "Mardi", "Mercredi", "Jeudi"] ∧
    c5rec.jour_semaine ≠ "Vendredi" ∧ 0 < c5rec.quantite :=
  C5_pdf_weekday_mapping.1 idEnv "s" "s.pdf" initState "Halal 1 0 0 2" c5rec (by decide)

/-! ### Claim C7 -/

/-- C7 counterexample: the text extractor's pattern table also contains
`Enfants`; on the page `"Enfants 1 2 3 4"` four records are emitted whose
category is `"Enfants"`, which is outside the claimed closed vocabulary
Standard / Sans porc / Végétarien / Halal. -/
theorem C7_enfants_category_emitted :
    (pdfPage idEnv "d" "d.pdf" initState "Enfants 1 2 3 4").1.map
        (fun r => r.categorie) =
      ["Enfants", "Enfants", "Enfants", "Enfants"] ∧
    "Enfants" ∉ categories := by decide

/-- C7 (amended): every record of the tabular extractor carries a category
from the closed vocabulary Standard, Sans porc, Végétarien, Halal; every
record of the text-block extractor carries a category from that vocabulary
extended with `Enfants` (its pattern table also scans the `Enfants`
keyword and emits matches under that tag). -/
theorem C7_category_vocab :
    (∀ sheet : List (List Cell), ∀ rec ∈ extract_table_data sheet,
      rec.categorie ∈ categories) ∧
    (∀ (env : PyEnv) (stem fname : String) (pages : List String) (st : NormalizerState),
      ∀ r ∈ (extract_from_pdf env stem fname pages st).1, r.categorie ∈ pdfCats) := by
  refine ⟨extract_table_cat, ?_⟩
  intro env stem fname pages st r hr
  exact extract_pdf_fold_cat env stem fname pages ([], st)
    (fun rec hrec => absurd hrec (List.not_mem_nil rec)) r hr

/-- The tabular record extracted from the sheet
`[[None, "LUNDI"], ["Halal", 3]]`. -/
def c7trec : TRecord :=
  { type_repas := Option.none, categorie := "Halal", jour_semaine := "Lundi",
    quantite := 3 }

/-- The text-block record extracted from the one-page document
`["Standard 1 1 1 1"]` with file stem `w` (first of its four records). -/
def c7prec : PdfR :=
  { ecole := "w", ecole_normalized := "W", agent := Option.none,
    jour_semaine := "Lundi", categorie := "Standard", quantite := 1,
    source_fichier := "w.pdf" }

/-- C7 witness: a concrete tabular record (`Halal`) and a concrete
text-block record (`Standard`) checked against their vocabularies. -/
theorem C7_category_vocab_witness :
    c7trec.categorie ∈ categories ∧ c7prec.categorie ∈ pdfCats :=
  ⟨C7_category_vocab.1 [[Cell.none, Cell.str "LUNDI"], [Cell.str "Halal", Cell.int 3]]
      c7trec (by decide),
   C7_category_vocab.2 idEnv "w" "w.pdf" ["Standard 1 1 1 1"] initState
      c7prec (by decide)⟩

/-! ### The batch orchestrator (`CrediExtractorGUI._process_files_thread`) -/

/-- The per-run counters of the batch loop (lines 712-714): files counted
as processed, files that raised, and total records. -/
structure BatchCounters where
  processed : Nat
  errors : Nat
  total_records : Nat
deriving DecidableEq

/-- One iteration of the per-file loop (lines 716-742).  The file's
extraction-and-save behaviour is its outcome: either the extracted record
list or the message of the exception it raised — the shallow embedding of
the per-file I/O.  An exception is caught, increments the error counter and
the loop continues; non-empty data is saved and counted into the processed
and record counters; empty data only logs a warning and touches no
counter. -/
def processOne {α : Type} (acc : BatchCounters) (o : Except String (List α)) : BatchCounters :=
  match o with
  | Except.error _ => { acc with errors := acc.errors + 1 }
  | Except.ok data =>
    if data.isEmpty then acc
    else { acc with
           processed := acc.processed + 1,
           total_records := acc.total_records + data.length }

/-- The batch loop over all (pre-filtered `.xlsx`/`.xls`/`.pdf`) files.
That this is a total function returning final counters for every outcome
list embeds the run's failure isolation: every per-file exception is
consumed by the loop, and the summary of lines 747-752 is always
produced from the returned counters. -/
def runBatch {α : Type} (files : List (Except String (List α))) : BatchCounters :=
  files.foldl processOne { processed := 0, errors := 0, total_records := 0 }

/-- A file outcome that raised. -/
def isErr {α : Type} : Except String (List α) → Bool
  | Except.error _ => true
  | Except.ok _ => false

/-- A file outcome that yielded at least one record. -/
def okNonempty {α : Type} : Except String (List α) → Bool
  | Except.error _ => false
  | Except.ok data => !data.isEmpty

theorem isEmpty_false_of_ne {α : Type} (l : List α) (h : l ≠ []) : l.isEmpty = false := by
  cases l with
  | nil => exact absurd rfl h
  | cons a t => rfl

/-- The batch counters in closed form, for any starting counters. -/
theorem runBatch_counts {α : Type} : ∀ (files : List (Except String (List α)))
    (acc : BatchCounters),
    (files.foldl processOne acc).errors = acc.errors + files.countP isErr ∧
    (files.foldl processOne acc).processed = acc.processed + files.countP okNonempty
  | [], acc => by simp
  | o :: files, acc => by
    rw [List.foldl_cons]
    have ih := runBatch_counts files (processOne acc o)
    rcases ih with ⟨ihe, ihp⟩
    rw [ihe, ihp]
    cases o with
    | error e => simp [processOne, List.countP_cons, isErr, okNonempty]; omega
    | ok data =>
      by_cases hd : data.isEmpty
      · simp [processOne, hd, List.countP_cons, isErr, okNonempty]
      · simp [processOne, hd, List.countP_cons, isErr, okNonempty]; omega

/-! ### Claim C4 -/

/-- C4 counterexample: a single non-errored file yielding zero records is
neither counted as an error nor as processed (the code increments
`processed` only inside `if data:`), so the processed counter does not
count every non-errored file as the claim states. -/
theorem C4_zero_record_file_not_processed :
    runBatch [Except.ok ([] : List TRecord)] =
      { processed := 0, errors := 0, total_records := 0 } := by decide

/-- C4 (amended): over any batch, a failure while processing one file
increments the error counter and the run continues with the next file, no
exception escaping the loop (`runBatch` is total and its error count is
exactly the number of failing files); the processed counter counts exactly
the non-errored files that yielded at least one record (a non-errored file
with zero records is logged as a warning and counted in neither counter);
in particular over 5 files where only file #3 is malformed and each good
file yields at least one record, `filesErrored = 1` and
`filesProcessed = 4`, and the final counters are produced. -/
theorem C4_batch_isolation :
    (∀ (α : Type) (files : List (Except String (List α))),
      (runBatch files).errors = files.countP isErr ∧
      (runBatch files).processed = files.countP okNonempty) ∧
    (∀ (α : Type) (d1 d2 d4 d5 : List α) (e : String),
      d1 ≠ [] → d2 ≠ [] → d4 ≠ [] → d5 ≠ [] →
      (runBatch [Except.ok d1, Except.ok d2, Except.error e,
        Except.ok d4, Except.ok d5]).errors = 1 ∧
      (runBatch [Except.ok d1, Except.ok d2, Except.error e,
        Except.ok d4, Except.ok d5]).processed = 4) := by
  have hgen : ∀ (α : Type) (files : List (Except String (List α))),
      (runBatch files).errors = files.countP isErr ∧
      (runBatch files).processed = files.countP okNonempty := by
    intro α files
    have := runBatch_counts files { processed := 0, errors := 0, total_records := 0 }
    simpa [runBatch] using this
  refine ⟨hgen, ?_⟩
  intro α d1 d2 d4 d5 e h1 h2 h4 h5
  have hc := hgen α [Except.ok d1, Except.ok d2, Except.error e, Except.ok d4, Except.ok d5]
  rcases hc with ⟨he, hp⟩
  rw [he, hp]
  simp [List.countP_cons, isErr, okNonempty, isEmpty_false_of_ne d1 h1,
    isEmpty_false_of_ne d2 h2, isEmpty_false_of_ne d4 h4, isEmpty_false_of_ne d5 h5]

/-- C4 witness: five concrete outcomes with only the third failing. -/
theorem C4_batch_isolation_witness :
    (runBatch [Except.ok [()], Except.ok [()], Except.error "bad file",
      Except.ok [()], Except.ok [(), ()]]).errors = 1 ∧
    (runBatch [Except.ok [()], Except.ok [()], Except.error "bad file",
      Except.ok [()], Except.ok [(), ()]]).processed = 4 :=
  C4_batch_isolation.2 Unit [()] [()] [()] [(), ()] "bad file"
    (by decide) (by decide) (by decide) (by decide)

end Credi
